import Mathlib

/-! Verification of the Genau food-plan pipeline (parser, enrichment,
rule evaluation) against its design document.

The Python sources are shallowly embedded: dict-shaped documents become
structures, Python strings are handled at the `List Char` level (Python
compares and iterates strings by code point), fallible code returns
`Except`/`Option`, and in-place mutation becomes explicit state passing.
File layout: character/string utilities, then the rule engine
(`evaluate_foodplan.py`), the spreadsheet parser (`parse_foodplan_xlsx.py`),
the plan normalization pass (`app.py`), the enrichment engine
(`enrich_foodplan.py`), and finally the theorems, one per claim.
-/

namespace Genau

/-! Section: Python string primitives

Models of the CPython `str` operations the pipeline uses, restricted to
the code points this development exercises.  Python's `str.strip`, the
regex class `\s` and `str.isspace` agree on these characters. -/

/-- Whitespace as recognised by Python's `str.strip` and the regex `\s`
on the code points appearing in this development (ASCII whitespace plus
NO-BREAK SPACE), identified by code point. -/
def isPySpace (c : Char) : Bool :=
  c.toNat = 32 || c.toNat = 9 || c.toNat = 10 || c.toNat = 13 ||
    c.toNat = 11 || c.toNat = 12 || c.toNat = 160

/-- `str.lower` on one character, modelled for the code points this
development exercises (ASCII letters and the German capital umlauts;
all other characters used here are already lowercase). -/
def pyLowerChar (c : Char) : Char :=
  if 65 ≤ c.toNat && c.toNat ≤ 90 then Char.ofNat (c.toNat + 32)
  else if c = 'Ä' then 'ä'
  else if c = 'Ö' then 'ö'
  else if c = 'Ü' then 'ü'
  else c

/-- `str.lower` on a character list. -/
def pyLowerL (cs : List Char) : List Char := cs.map pyLowerChar

/-- `str.strip` on a character list: drop leading and trailing whitespace. -/
def pyStripL (cs : List Char) : List Char :=
  ((cs.dropWhile isPySpace).reverse.dropWhile isPySpace).reverse

/-- `str.strip` on strings. -/
def pyStrip (s : String) : String := ⟨pyStripL s.data⟩

/-- `str.lower` on strings. -/
def pyLower (s : String) : String := ⟨pyLowerL s.data⟩

/-- Code-point lexicographic `≤` on character lists: how CPython compares
`str` values (used by `sorted`). -/
def lexLe : List Char → List Char → Bool
  | [], _ => true
  | _ :: _, [] => false
  | a :: as, b :: bs =>
    if a.toNat < b.toNat then true
    else if b.toNat < a.toNat then false
    else lexLe as bs

/-- Python's `<=` on strings. -/
def strLeB (a b : String) : Bool := lexLe a.data b.data

/-- The string order used to model Python's `sorted` on strings. -/
def strLeP (a b : String) : Prop := strLeB a b = true

instance : DecidableRel strLeP := fun a b => by
  unfold strLeP; infer_instance

/-- Python's `sorted(set(l))` for a list of strings: deduplicate, then
sort by code-point order. -/
def sortedSet (l : List String) : List String :=
  List.insertionSort strLeP l.dedup

/-! Section: Data model

The JSON plan document (see the schema in the design document, §6).
Optional JSON fields and `null` become `Option`; numbers whose exact
value matters are rationals. -/

/-- A parsed portion: `{"value": <number>, "unit": "g" | "ml"}`. -/
structure Portion where
  value : ℚ
  unit : String
  deriving DecidableEq, Repr

/-- The `links` record on an item.  All fields nullable. -/
structure Links where
  bls_id : Option String := none
  bls_name : Option String := none
  food_group : Option String := none
  confidence : Option ℚ := none
  deriving DecidableEq, Repr, Inhabited

/-- One dish. -/
structure Item where
  raw_text : String
  portion : Option Portion := none
  notes : List String := []
  links : Option Links := none
  tags : List String := []
  deriving DecidableEq, Repr

/-- One menu line of a day. -/
structure Menu where
  menu_type : String
  items : List Item
  deriving DecidableEq, Repr

/-- One weekday block. -/
structure Day where
  weekday : Option String
  menus : List Menu
  deriving DecidableEq, Repr

/-- The plan document.  The constant metadata fields
(`schema_version`, `source`, `context`) carry no behaviour and are not
modelled. -/
structure Plan where
  days : List Day
  deriving DecidableEq, Repr

/-- `item.get("links") or {}`. -/
def linksOf (it : Item) : Links := it.links.getD {}

/-! Section: Rule engine (`backend/scripts/evaluate_foodplan.py`) -/

/-- `diet_from_menu_type`: maps a `menu_type` string to a diet key;
anything unrecognised maps to `"shared"`. -/
def diet_from_menu_type (menu_type : String) : String :=
  let mt := pyLower (pyStrip menu_type)
  if mt = "mischkost" then "mixed"
  else if mt = "vegetarisch" then "ovo_lacto_vegetarian"
  else if mt = "dessert" then "shared"
  else "shared"

/-- `menu_included_for_diet`: shared menus count for every report,
otherwise only the selected line counts. -/
def menu_included_for_diet (menu_type : String) (selected_diet : String) : Bool :=
  let d := diet_from_menu_type menu_type
  if d = "shared" then true else d = selected_diet

/-- `iter_items`: all `(weekday, menu_type, item)` triples of a plan,
in document order. -/
def iter_items (plan : Plan) : List (Option String × String × Item) :=
  plan.days.flatMap fun day =>
    day.menus.flatMap fun menu =>
      menu.items.map fun item => (day.weekday, menu.menu_type, item)

/-- An insertion-ordered counter dictionary (Python `dict` of counts). -/
abbrev CountMap := List (String × Nat)

/-- `m.get(k, 0)`. -/
def getCount (m : CountMap) (k : String) : Nat := ((m.lookup k).getD 0)

/-- `m[k] = m.get(k, 0) + 1`, preserving insertion order. -/
def bump (m : CountMap) (k : String) : CountMap :=
  match m with
  | [] => [(k, 1)]
  | (k', v) :: rest => if k' = k then (k', v + 1) :: rest else (k', v) :: bump rest k

/-- One evidence sample: `{weekday, menu_type, raw_text}`. -/
structure Ev where
  weekday : Option String
  menu_type : String
  raw_text : String
  deriving DecidableEq, Repr

/-- An insertion-ordered dictionary of evidence lists. -/
abbrev EvMap := List (String × List Ev)

/-- `m.get(k) or []`. -/
def getEv (m : EvMap) (k : String) : List Ev := ((m.lookup k).getD [])

/-- `m.setdefault(k, []).append(e)`. -/
def pushEv (m : EvMap) (k : String) (e : Ev) : EvMap :=
  match m with
  | [] => [(k, [e])]
  | (k', l) :: rest => if k' = k then (k', l ++ [e]) :: rest else (k', l) :: pushEv rest k e

/-- The four accumulators of `collect_counts_and_evidence`. -/
structure Agg where
  group_counts : CountMap := []
  tag_counts : CountMap := []
  evidence_groups : EvMap := []
  evidence_tags : EvMap := []
  deriving DecidableEq, Repr

/-- Loop body of `collect_counts_and_evidence` for one `(weekday,
menu_type, item)` triple that passed the diet filter. -/
def collectItem (agg : Agg) (weekday : Option String) (menu_type : String) (item : Item) : Agg :=
  let ev : Ev := ⟨weekday, menu_type, item.raw_text⟩
  -- `if group:` — a `None` or empty food group is not counted
  let agg :=
    match (linksOf item).food_group with
    | some g =>
      if g ≠ "" then
        { agg with
          group_counts := bump agg.group_counts g
          evidence_groups := pushEv agg.evidence_groups g ev }
      else agg
    | none => agg
  item.tags.foldl
    (fun a t =>
      { a with tag_counts := bump a.tag_counts t, evidence_tags := pushEv a.evidence_tags t ev })
    agg

/-- `collect_counts_and_evidence`: aggregate counts and evidence for one
diet, skipping menus the diet filter excludes. -/
def collect_counts_and_evidence (plan : Plan) (selected_diet : String) : Agg :=
  (iter_items plan).foldl
    (fun agg wmi =>
      if menu_included_for_diet wmi.2.1 selected_diet then
        collectItem agg wmi.1 wmi.2.1 wmi.2.2
      else agg)
    {}

/-- A rule document entry.  `target.value` is stored after `as_list`
(the source accepts a single string or a list and normalises to a
list); `threshold` after `int(...)`. -/
structure Rule where
  id : Option String := none
  label : Option String := none
  diet : Option String := none
  count_by : Option String := none
  target_value : List String := []
  operator : String := ""
  threshold : Int := 0
  notes : Option String := none
  deriving DecidableEq, Repr

/-- `rule_applies`: `rule.get("diet", "all")` is `"all"` or the
selected diet. -/
def rule_applies (rule : Rule) (selected_diet : String) : Bool :=
  let d := rule.diet.getD "all"
  if d = "all" then true else d = selected_diet

/-- `evaluate_operator`: `min`/`max`/`equals`, anything else raises. -/
def evaluate_operator (actual : Int) (operator : String) (threshold : Int) :
    Except String Bool :=
  if operator = "min" then .ok (actual ≥ threshold)
  else if operator = "max" then .ok (actual ≤ threshold)
  else if operator = "equals" then .ok (actual = threshold)
  else .error ("Unsupported operator: " ++ operator)

/-- Result record of one rule (`build_rule_result`'s return dict; the
`target` echo is dropped, it is the input's own field). -/
structure RuleResult where
  id : Option String
  label : Option String
  diet : Option String
  applies : Bool
  operator : String
  threshold : Int
  expected : String
  actual : Int
  passed : Bool
  notes : Option String
  evidence_sample : List Ev
  deriving DecidableEq, Repr

/-- `build_rule_result`: sum counts over the target values, evaluate
the operator, attach up to 10 evidence samples; unknown `count_by`
raises. -/
def build_rule_result (rule : Rule) (selected_diet : String)
    (group_counts : CountMap) (tag_counts : CountMap)
    (evidence_groups : EvMap) (evidence_tags : EvMap) :
    Except String RuleResult :=
  let values := rule.target_value
  let step : Except String (Int × List Ev) :=
    if rule.count_by = some "food_group" then
      .ok (values.foldl
        (fun (p : Int × List Ev) v =>
          (p.1 + (getCount group_counts v : Int), p.2 ++ (getEv evidence_groups v).take 10))
        (0, []))
    else if rule.count_by = some "tag" then
      .ok (values.foldl
        (fun (p : Int × List Ev) v =>
          (p.1 + (getCount tag_counts v : Int), p.2 ++ (getEv evidence_tags v).take 10))
        (0, []))
    else
      .error ("Unsupported target.count_by: " ++ (rule.count_by.getD "None"))
  match step with
  | .error e => .error e
  | .ok (actual, evidence) =>
    match evaluate_operator actual rule.operator rule.threshold with
    | .error e => .error e
    | .ok passed =>
      let expected :=
        if rule.operator = "min" then "mind. " ++ toString rule.threshold
        else if rule.operator = "max" then "max. " ++ toString rule.threshold
        else if rule.operator = "equals" then "genau " ++ toString rule.threshold
        else rule.operator ++ " " ++ toString rule.threshold
      .ok
        { id := rule.id
          label := rule.label
          diet := rule.diet
          applies := rule_applies rule selected_diet
          operator := rule.operator
          threshold := rule.threshold
          expected := expected
          actual := actual
          passed := passed
          notes := rule.notes
          evidence_sample := evidence.take 10 }

/-- The rule document: `{"scope": ..., "rules": [...]}`. -/
structure RulesDoc where
  scope : Option String := none
  rules : List Rule := []
  deriving DecidableEq, Repr

/-- The per-rule loop of `evaluate_plan_for_diet`: result list plus the
`applicable`/`passed` counters; the first raising rule aborts. -/
def evalRules (selected_diet : String) (group_counts tag_counts : CountMap)
    (evidence_groups evidence_tags : EvMap) :
    List Rule → Except String (List RuleResult × Nat × Nat)
  | [] => .ok ([], 0, 0)
  | rule :: rest =>
    match build_rule_result rule selected_diet group_counts tag_counts
      evidence_groups evidence_tags with
    | .error e => .error e
    | .ok res =>
      match evalRules selected_diet group_counts tag_counts
        evidence_groups evidence_tags rest with
      | .error e => .error e
      | .ok (results, applicable, passed) =>
        .ok (res :: results,
          (if res.applies then 1 else 0) + applicable,
          (if res.applies && res.passed then 1 else 0) + passed)

/-- `round(x, 3)` modelled over the rationals (rounds to the nearest
multiple of 1/1000; the claims proved below do not depend on the
tie-breaking policy). -/
def round3 (q : ℚ) : ℚ := (round (1000 * q) : ℚ) / 1000

/-- `summary` block of a report. -/
structure Summary where
  applicable_rules : Nat
  passed_rules : Nat
  score : ℚ
  deriving DecidableEq, Repr

/-- One diet's report. -/
structure Report where
  diet : String
  scope : Option String
  summary : Summary
  food_groups : CountMap
  tags : CountMap
  rules : List RuleResult
  deriving DecidableEq, Repr

/-- `evaluate_plan_for_diet`: aggregate, evaluate every rule, score
with `round(passed / applicable, 3)` (or `0.0` when no rule applies). -/
def evaluate_plan_for_diet (plan : Plan) (rules_doc : RulesDoc) (selected_diet : String) :
    Except String Report :=
  let agg := collect_counts_and_evidence plan selected_diet
  match evalRules selected_diet agg.group_counts agg.tag_counts
    agg.evidence_groups agg.evidence_tags rules_doc.rules with
  | .error e => .error e
  | .ok (rule_results, applicable, passed) =>
    let score : ℚ :=
      if applicable ≠ 0 then round3 ((passed : ℚ) / (applicable : ℚ)) else 0
    .ok
      { diet := selected_diet
        scope := rules_doc.scope
        summary := ⟨applicable, passed, score⟩
        food_groups := agg.group_counts
        tags := agg.tag_counts
        rules := rule_results }

/-! Section: Spreadsheet parser (`backend/scripts/parse_foodplan_xlsx.py`)

The parser receives the spreadsheet as a grid of cells.  A cell is
`none` for an empty/NaN cell and `some s` for the cell's text (the
model of what `pandas` hands to `norm_cell`). -/

/-- One spreadsheet row (columns left to right). -/
abbrev Row := List (Option String)

/-- `norm_cell`: trim to `None` or a non-empty string. -/
def norm_cell (x : Option String) : Option String :=
  match x with
  | none => none
  | some s =>
    let t := pyStrip s
    if t = "" then none else some t

/-- Digit test of the regex class `\d` on the inputs used here. -/
def isDigitChar (c : Char) : Bool := 48 ≤ c.toNat && c.toNat ≤ 57

/-- Numeric value of a digit run. -/
def digitsToNat (ds : List Char) : Nat :=
  ds.foldl (fun n c => 10 * n + (c.toNat - '0'.toNat)) 0

/-- `float(...)` of `<digits>` or `<digits>.<digits>` as a rational. -/
def floatOfDigits (intPart : List Char) (fracPart : List Char) : ℚ :=
  (digitsToNat intPart : ℚ) + (digitsToNat fracPart : ℚ) / (10 : ℚ) ^ fracPart.length

/-- The tail `\s*(g|ml)$` of the portion regex: after the number, an
optional whitespace run and then exactly the unit. -/
def finishAmount (v : ℚ) (r2 : List Char) : Option Portion :=
  let r3 := r2.dropWhile isPySpace
  if r3 = ['g'] then some ⟨v, "g"⟩
  else if r3 = ['m', 'l'] then some ⟨v, "ml"⟩
  else none

/-- The regex `^(\d+(?:\.\d+)?)\s*(g|ml)$` of `parse_amount`, applied to
the cleaned character list: an integer part, an optional fraction, an
optional whitespace run, then exactly `g` or `ml`. -/
def matchAmount (cs : List Char) : Option Portion :=
  let d1 := cs.takeWhile isDigitChar
  if d1.isEmpty then none
  else
    match cs.dropWhile isDigitChar with
    | '.' :: rest =>
      let d2 := rest.takeWhile isDigitChar
      if d2.isEmpty then none
      else finishAmount (floatOfDigits d1 d2) (rest.dropWhile isDigitChar)
    | r => finishAmount (floatOfDigits d1 []) r

/-- `parse_amount`: `text.strip().lower().replace(" ", "")` matched
against the portion regex; anything else is `None`.  (`.replace(" ",
"")` deletes every SPACE character, i.e. a filter.) -/
def parse_amount (text : Option String) : Option Portion :=
  match text with
  | none => none
  | some t =>
    if t = "" then none
    else matchAmount ((pyLowerL (pyStripL t.data)).filter (fun c => c ≠ ' '))

/-- `join_hyphen`: hyphenated line wrap is concatenated without a
space, otherwise one space separates the parts. -/
def join_hyphen (prev : String) (curr : String) : String :=
  if prev.data.getLast? = some '-' then ⟨prev.data.dropLast⟩ ++ curr
  else prev ++ " " ++ curr

/-- `row[i]` guarded by `i < len(row)` as in `parse_block`, then
`norm_cell`. -/
def getCell (row : Row) (i : Nat) : Option String :=
  norm_cell (row.getD i none)

/-- The fresh item dict `parse_block` creates for a new dish row. -/
def newItem (name : String) (amount : Option String) (notes : Option String) : Item :=
  { raw_text := name
    portion := parse_amount amount
    notes := match notes with | some n => [n] | none => []
    links := some { bls_id := none, food_group := none, confidence := none }
    tags := [] }

/-- The row state machine of `parse_block` (`current` is the open
dish); emits items in the order the source appends them. -/
def parseBlockGo (nameCol amountCol notesCol : Nat) :
    List Row → Option Item → List Item
  | [], cur => match cur with | some c => [c] | none => []
  | row :: rest, cur =>
    let name := getCell row nameCol
    let amount := getCell row amountCol
    let notes := getCell row notesCol
    match name with
    | none =>
      match amount, notes with
      | none, none =>
        -- fully empty row
        parseBlockGo nameCol amountCol notesCol rest cur
      | _, _ =>
        -- no name: backfill portion and/or append notes to the open dish
        let cur' :=
          match cur with
          | none => none
          | some c =>
            let c :=
              if amount.isSome && c.portion.isNone then { c with portion := parse_amount amount }
              else c
            let c :=
              match notes with
              | some n => { c with notes := c.notes ++ [n] }
              | none => c
            some c
        parseBlockGo nameCol amountCol notesCol rest cur'
    | some n =>
      match cur with
      | some c =>
        if amount.isNone && notes.isNone then
          -- continuation line: merge into the open dish
          parseBlockGo nameCol amountCol notesCol rest
            (some { c with raw_text := join_hyphen c.raw_text n })
        else
          -- new dish: emit the open one first
          c :: parseBlockGo nameCol amountCol notesCol rest (some (newItem n amount notes))
      | none =>
        parseBlockGo nameCol amountCol notesCol rest (some (newItem n amount notes))

/-- `parse_block`: run the state machine over the block's rows, then
drop items with falsy `raw_text`. -/
def parse_block (rows : List Row) (nameCol amountCol notesCol : Nat) : List Item :=
  (parseBlockGo nameCol amountCol notesCol rows none).filter (fun it => it.raw_text ≠ "")

/-- The five weekday labels (`DAYS`). -/
def DAYS : List String := ["montag", "dienstag", "mittwoch", "donnerstag", "freitag"]

/-- Does a column-0 cell start a day block?  (`v and v.lower() in DAYS`.) -/
def isDayCell (x : Option String) : Bool :=
  match norm_cell x with
  | some v => decide (pyLower v ∈ DAYS)
  | none => false

/-- Row indices whose column 0 is a weekday label. -/
def dayRowIdxs (grid : List Row) : List Nat :=
  (List.range grid.length).filter (fun i => isDayCell ((grid.getD i []).getD 0 none))

/-- One day from its block: clear the weekday cell (`block.iat[0,0] =
None`), parse the three fixed column triples. -/
def buildDay (grid : List Row) (start stop : Nat) : Day :=
  let block := (grid.drop start).take (stop - start)
  let block :=
    match block with
    | [] => []
    | r :: rs => r.set 0 none :: rs
  { weekday := norm_cell ((grid.getD start []).getD 0 none)
    menus :=
      [ ⟨"mischkost", parse_block block 1 2 3⟩,
        ⟨"vegetarisch", parse_block block 4 5 6⟩,
        ⟨"dessert", parse_block block 7 8 9⟩ ] }

/-- All days, each block spanning to the next weekday row (or the end
of the table). -/
def buildDays (grid : List Row) : List Nat → List Day
  | [] => []
  | start :: rest =>
    let stop := match rest with | [] => grid.length | next :: _ => next
    buildDay grid start stop :: buildDays grid rest

/-- Total item count of a built plan. -/
def totalItems (days : List Day) : Nat :=
  (days.flatMap fun d => d.menus.map fun m => m.items.length).sum

/-- `parse_foodplan_xlsx` on the cell grid (`usecols="A:J"`, `nrows=400`
become a truncation of the grid): fails when no weekday row exists or
when the parsed plan holds zero items. -/
def parse_foodplan_xlsx (grid : List Row) : Except String Plan :=
  let g := (grid.take 400).map (fun r => r.take 10)
  let day_rows := dayRowIdxs g
  if day_rows.isEmpty then
    .error "Keine Tageszeilen (Montag-Freitag) in Spalte 0 gefunden. Format passt nicht."
  else
    let plan : Plan := ⟨buildDays g day_rows⟩
    if totalItems plan.days = 0 then
      .error "0 Items extrahiert. Vermutlich passt das XLSX nicht zum KW47-Template (Sheet Tabelle1, Spalten A..J)."
    else
      .ok plan

/-! Section: Plan-level normalization pass (`normalize_plan` in `backend/app.py`) -/

/-- The per-item body of `normalize_plan`'s loop.  `fg` is read once;
both corrections test the original value. -/
def normalizeItem (item : Item) : Item :=
  let links := linksOf item
  let fg := links.food_group
  -- 1) unify the "vegetable"/"vegetables" aliases
  let links :=
    if fg = some "vegetable" ∨ fg = some "vegetables" then
      { links with food_group := some "vegetables" }
    else links
  -- 2) "raw_veg" is a tag, not a food group
  if fg = some "raw_veg" then
    let links := { links with food_group := some "vegetables" }
    let tags := item.tags
    let tags := if "raw_veg" ∈ tags then tags else tags ++ ["raw_veg"]
    { item with links := some links, tags := tags }
  else
    { item with links := some links }

/-- `normalize_plan`: apply the corrections to every item of the plan. -/
def normalize_plan (plan : Plan) : Plan :=
  { plan with
    days := plan.days.map fun day =>
      { day with
        menus := day.menus.map fun menu =>
          { menu with items := menu.items.map normalizeItem } } }

/-! Section: Enrichment engine (`backend/scripts/enrich_foodplan.py`) -/

/-- The `STOPWORDS` set. -/
def STOPWORDS : List String :=
  ["mit", "und", "in", "vom", "von", "nach", "art", "im", "an", "der", "die",
   "das", "auf", "für", "zu", "oder", "sowie", "inkl", "inkl.", "ca", "ca.",
   "tk", "bio"]

/-- `unicodedata.normalize("NFKC", ·)` of the Python standard library
(external to this repository) on one code point, modelled from the
Unicode standard for the code points exercised in this development:
NFKC applies compatibility decomposition followed by canonical
composition, so the LATIN SMALL LIGATURE FI and NO-BREAK SPACE are
rewritten while the remaining code points used here are fixed. -/
def nfkcChar (c : Char) : List Char :=
  if c = 'ﬁ' then ['f', 'i']
  else if c = '\xa0' then [' ']
  else [c]

/-- NFKC on a character list. -/
def nfkcL (cs : List Char) : List Char := cs.flatMap nfkcChar

/-- Unicode *canonical* composition (NFC) on one code point, modelled
from the Unicode standard for the same code points: NFC applies only
canonical decomposition and composition, under which every code point
used in this development is fixed (compatibility characters such as the
FI ligature and NO-BREAK SPACE are canonical-invariant). -/
def nfcChar (c : Char) : List Char := [c]

/-- NFC on a character list. -/
def nfcL (cs : List Char) : List Char := cs.flatMap nfcChar

/-- `re.sub(r"\s+", " ", ·)`: collapse every whitespace run to one
SPACE. -/
def collapseWsL : List Char → List Char
  | [] => []
  | c :: rest =>
    if isPySpace c then
      match collapseWsL rest with
      | ' ' :: t => ' ' :: t
      | t => ' ' :: t
    else c :: collapseWsL rest

/-- `normalize_text`: trim, lowercase, NFKC, collapse whitespace runs. -/
def normalize_text (s : String) : String :=
  if s = "" then ""
  else ⟨collapseWsL (nfkcL (pyLowerL (pyStripL s.data)))⟩

/-- The normalization the design document describes, with *canonical*
composition (NFC) in place of the code's NFKC; stated from the spec's
words for comparison with `normalize_text`. -/
def normalizeTextCanonical (s : String) : String :=
  if s = "" then ""
  else ⟨collapseWsL (nfcL (pyLowerL (pyStripL s.data)))⟩

/-- A word character of the token-split regex `[^a-z0-9äöüß]+` (the
text is already lowercased by `normalize_text`). -/
def isWordChar (c : Char) : Bool :=
  (97 ≤ c.toNat && c.toNat ≤ 122) || (48 ≤ c.toNat && c.toNat ≤ 57) ||
    c = 'ä' || c = 'ö' || c = 'ü' || c = 'ß'

/-- Split a character list into maximal word-character runs (the
non-empty pieces of `re.split(r"[^a-z0-9äöüß]+", ·)`). -/
def tokenRuns : List Char → List Char → List (List Char)
  | [], cur => if cur.isEmpty then [] else [cur.reverse]
  | c :: rest, cur =>
    if isWordChar c then tokenRuns rest (c :: cur)
    else if cur.isEmpty then tokenRuns rest []
    else cur.reverse :: tokenRuns rest []

/-- `tokenize`: normalize, split on non-word characters, drop empty
tokens and stopwords. -/
def tokenize (s : String) : List String :=
  ((tokenRuns (normalize_text s).data []).map (fun l => (⟨l⟩ : String))).filter
    (fun t => t ∉ STOPWORDS)

/-- `token_matches_keyword`: equality, a leading match, or substring ("stemming
light"). -/
def isInfixL (k : List Char) (t : List Char) : Bool :=
  k.isPrefixOf t ||
    match t with
    | [] => false
    | _ :: ts => isInfixL k ts

/-- `token_matches_keyword` on strings. -/
def token_matches_keyword (token : String) (kw : String) : Bool :=
  if token = "" || kw = "" then false
  else token = kw || kw.data.isPrefixOf token.data || isInfixL kw.data token.data

/-- `score_keywords`: at most one hit per keyword. -/
def score_keywords (tokens : List String) (keywords : List String) : Nat :=
  keywords.foldl
    (fun hits kw => if tokens.any (fun tok => token_matches_keyword tok kw) then hits + 1 else hits)
    0

/-- `MatchResult` of a group match. -/
structure MatchResult where
  key : Option String
  score : ℚ
  hits : Nat
  deriving DecidableEq, Repr

/-- A keyword dictionary in insertion order (`Dict[str, List[str]]`). -/
abbrev KeywordMap := List (String × List String)

/-- `pick_best_group`: the group with strictly the most keyword hits
(first seen wins ties); confidence is hit density capped at 1. -/
def pick_best_group (raw_text : String) (group_keywords : KeywordMap) : MatchResult :=
  let tokens := tokenize raw_text
  let best :=
    group_keywords.foldl
      (fun (b : Option String × Nat × Nat) gk =>
        if gk.2.isEmpty then b
        else
          let hits := score_keywords tokens gk.2
          if hits > b.2.1 then (some gk.1, hits, gk.2.length) else b)
      (none, 0, 0)
  let score : ℚ :=
    match best.1 with
    | some k =>
      -- `if best_key and best_kw_len > 0` — an empty group name is falsy
      if k ≠ "" ∧ best.2.2 > 0 then min 1 ((best.2.1 : ℚ) / (max 1 best.2.2 : ℚ))
      else 0
    | none => 0
  ⟨best.1, score, best.2.1⟩

/-- `collect_tags`: every tag category with at least one hit, as a
sorted set. -/
def collect_tags (raw_text : String) (tag_keywords : KeywordMap) : List String :=
  let tokens := tokenize raw_text
  sortedSet
    (tag_keywords.foldr
      (fun tk acc =>
        if tk.2.isEmpty then acc
        else if score_keywords tokens tk.2 > 0 then tk.1 :: acc
        else acc)
      [])

/-- The BLS fallback store: `bls_best_match conn raw` returns
`(best_id, best_name)`.  The store is an external collaborator (a
SQLite database probed at runtime), so it enters the embedding as an
abstract query function; `none` models a missing database (no
connection). -/
abbrev BlsLookup := Option (String → Option String × Option String)

/-- The per-item enrichment: keyword matching, the optional BLS
fallback when no group matched, then the writeback into `links` and
`tags`.  Mirrors the loop body of `enrich_plan` (the `stats` counters
returned alongside the plan do not affect the plan and are not
modelled). -/
def enrichItem (group_keywords tag_keywords : KeywordMap) (bls : BlsLookup)
    (item : Item) : Item :=
  let raw := item.raw_text
  let group_res := pick_best_group raw group_keywords
  let tags := collect_tags raw tag_keywords
  -- `if not group_res.key:` — None and "" are both falsy
  let fallback :=
    if group_res.key = none ∨ group_res.key = some "" then
      match bls with
      | some query =>
        -- `bls_id, bls_name = bls_best_match(conn, raw)`; `if bls_name:`
        -- — None and "" are both falsy
        match (query raw).2 with
        | some nm =>
          if nm ≠ "" then
            some (pick_best_group nm group_keywords,
              sortedSet (tags ++ collect_tags nm tag_keywords), (query raw).1, nm)
          else none
        | none => none
      | none => none
    else none
  match fallback with
  | some (group_res', tags', bls_id, nm) =>
    let links := linksOf item
    let links :=
      { links with
        food_group := group_res'.key
        confidence := some group_res'.score
        bls_id := bls_id
        bls_name := some nm }
    { item with links := some links, tags := sortedSet (item.tags ++ tags') }
  | none =>
    let links := linksOf item
    let links := { links with food_group := group_res.key, confidence := some group_res.score }
    { item with links := some links, tags := sortedSet (item.tags ++ tags) }

/-- `enrich_plan`: enrich every item of the plan. -/
def enrich_plan (plan : Plan) (group_keywords tag_keywords : KeywordMap)
    (bls : BlsLookup) : Plan :=
  { plan with
    days := plan.days.map fun day =>
      { day with
        menus := day.menus.map fun menu =>
          { menu with items := menu.items.map (enrichItem group_keywords tag_keywords bls) } } }

/-- The tag list `enrich_plan` merges into an item: the keyword tags,
extended by the fallback name's tags when the BLS fallback was used. -/
def collectedTags (group_keywords tag_keywords : KeywordMap) (bls : BlsLookup)
    (item : Item) : List String :=
  let group_res := pick_best_group item.raw_text group_keywords
  let tags := collect_tags item.raw_text tag_keywords
  if group_res.key = none ∨ group_res.key = some "" then
    match bls with
    | some query =>
      match (query item.raw_text).2 with
      | some nm =>
        if nm ≠ "" then sortedSet (tags ++ collect_tags nm tag_keywords) else tags
      | none => tags
    | none => tags
  else tags

/-! Section: Predicates used by the theorems below -/

/-- A rule configuration the engine rejects: an unknown `count_by`
selector or an unknown operator. -/
def unsupportedRule (r : Rule) : Prop :=
  (r.count_by ≠ some "food_group" ∧ r.count_by ≠ some "tag") ∨
    (r.operator ≠ "min" ∧ r.operator ≠ "max" ∧ r.operator ≠ "equals")

/-- The plan restricted to the menus a diet's run includes. -/
def filterPlanForDiet (plan : Plan) (sel : String) : Plan :=
  { plan with
    days := plan.days.map fun d =>
      { d with menus := d.menus.filter (fun m => menu_included_for_diet m.menu_type sel) } }

/-- Exactly the unit `g` or `ml`. -/
def unitOk (r : List Char) : Bool := r = ['g'] || r = ['m', 'l']

/-- `<digits>`, optionally `.<digits>`, then a unit: the shape of the
four literal portion patterns once every whitespace character is
removed. -/
def patternNoWs (cs : List Char) : Bool :=
  let d1 := cs.takeWhile isDigitChar
  match cs.dropWhile isDigitChar with
  | '.' :: rest =>
    !d1.isEmpty && !(rest.takeWhile isDigitChar).isEmpty &&
      unitOk (rest.dropWhile isDigitChar)
  | r => !d1.isEmpty && unitOk r

/-- The spec's acceptance notion for portion texts: a case-insensitive,
whitespace-insensitive instance of `<number>g` / `<number> g` /
`<number>ml` / `<number> ml`. -/
def specPortionPattern (s : String) : Bool :=
  patternNoWs ((pyLowerL s.data).filter (fun c => !(isPySpace c)))

/-- No two adjacent whitespace characters. -/
def noTwoWs : List Char → Bool
  | [] => true
  | [_] => true
  | a :: b :: rest => !(isPySpace a && isPySpace b) && noTwoWs (b :: rest)

/-- Every whitespace character is a plain SPACE. -/
def wsOnlySpace (l : List Char) : Bool := l.all (fun c => !(isPySpace c) || c = ' ')

/-! Section: General lemmas about the string order and `sortedSet` -/

theorem lexLe_total (a b : List Char) : lexLe a b = true ∨ lexLe b a = true := by
  induction a generalizing b with
  | nil => left; rfl
  | cons x xs ih =>
    cases b with
    | nil => right; rfl
    | cons y ys =>
      simp only [lexLe]
      rcases Nat.lt_trichotomy x.toNat y.toNat with h | h | h
      · left; simp [h]
      · have h1 : ¬ x.toNat < y.toNat := by omega
        have h2 : ¬ y.toNat < x.toNat := by omega
        rcases ih ys with h3 | h3
        · left; simp [h1, h2, h3]
        · right; simp [h1, h2, h3]
      · right; simp [h, Nat.lt_asymm h]

theorem lexLe_trans {a b c : List Char}
    (hab : lexLe a b = true) (hbc : lexLe b c = true) : lexLe a c = true := by
  induction a generalizing b c with
  | nil => rfl
  | cons x xs ih =>
    cases b with
    | nil => simp [lexLe] at hab
    | cons y ys =>
      cases c with
      | nil => simp [lexLe] at hbc
      | cons z zs =>
        simp only [lexLe] at hab hbc ⊢
        by_cases h1 : x.toNat < y.toNat
        · simp only [h1, if_true] at hab
          by_cases h2 : y.toNat < z.toNat
          · have : x.toNat < z.toNat := by omega
            simp [this]
          · by_cases h2' : z.toNat < y.toNat
            · simp [h1, h2, h2'] at hbc
            · have : x.toNat < z.toNat := by omega
              simp [this]
        · by_cases h1' : y.toNat < x.toNat
          · simp [h1, h1'] at hab
          · -- x.toNat = y.toNat
            simp only [h1, h1', if_false] at hab
            by_cases h2 : y.toNat < z.toNat
            · have : x.toNat < z.toNat := by omega
              simp [this]
            · by_cases h2' : z.toNat < y.toNat
              · simp [h2, h2'] at hbc
              · simp only [h2, h2', if_false] at hbc
                have h3 : ¬ x.toNat < z.toNat := by omega
                have h4 : ¬ z.toNat < x.toNat := by omega
                simp only [h3, h4, if_false]
                exact ih hab hbc

theorem mem_sortedSet {a : String} {l : List String} :
    a ∈ sortedSet l ↔ a ∈ l := by
  unfold sortedSet
  rw [(List.perm_insertionSort strLeP l.dedup).mem_iff]
  exact List.mem_dedup

theorem nodup_sortedSet (l : List String) : (sortedSet l).Nodup :=
  ((List.perm_insertionSort strLeP l.dedup).nodup_iff).mpr (List.nodup_dedup l)

theorem sorted_sortedSet (l : List String) : List.Sorted strLeP (sortedSet l) :=
  @List.sorted_insertionSort String strLeP _
    ⟨fun a b => lexLe_total a.data b.data⟩
    ⟨fun _ _ _ hab hbc => lexLe_trans hab hbc⟩
    l.dedup

/-! Section: Rule-engine error behaviour (claim C1) -/

theorem build_rule_result_error (rule : Rule) (sel : String) (gc tc : CountMap)
    (eg et : EvMap) (h : unsupportedRule rule) :
    ∃ m, build_rule_result rule sel gc tc eg et = .error m := by
  rcases h with ⟨h1, h2⟩ | ⟨h1, h2, h3⟩
  · exact ⟨"Unsupported target.count_by: " ++ (rule.count_by.getD "None"),
      by simp [build_rule_result, h1, h2]⟩
  · by_cases hc1 : rule.count_by = some "food_group"
    · exact ⟨"Unsupported operator: " ++ rule.operator,
        by simp [build_rule_result, evaluate_operator, hc1, h1, h2, h3]⟩
    · by_cases hc2 : rule.count_by = some "tag"
      · exact ⟨"Unsupported operator: " ++ rule.operator,
          by simp [build_rule_result, evaluate_operator, hc1, hc2, h1, h2, h3]⟩
      · exact ⟨"Unsupported target.count_by: " ++ (rule.count_by.getD "None"),
          by simp [build_rule_result, hc1, hc2]⟩

theorem build_rule_result_ok_shape {rule : Rule} {sel : String} {gc tc : CountMap}
    {eg et : EvMap} {res : RuleResult}
    (h : build_rule_result rule sel gc tc eg et = .ok res) :
    res.operator = rule.operator ∧ res.threshold = rule.threshold ∧
      res.applies = rule_applies rule sel ∧
      evaluate_operator res.actual rule.operator rule.threshold = .ok res.passed := by
  unfold build_rule_result at h
  by_cases hc1 : rule.count_by = some "food_group"
  · simp only [hc1, reduceIte] at h
    split at h
    · exact absurd h (by simp)
    · rename_i passed heq
      injection h with h
      subst h
      exact ⟨rfl, rfl, rfl, heq⟩
  · simp only [hc1, reduceIte] at h
    by_cases hc2 : rule.count_by = some "tag"
    · simp only [hc2, reduceIte] at h
      split at h
      · exact absurd h (by simp)
      · rename_i passed heq
        injection h with h
        subst h
        exact ⟨rfl, rfl, rfl, heq⟩
    · simp only [hc2, reduceIte] at h
      exact absurd h (by simp)

theorem evalRules_error_of_mem (sel : String) (gc tc : CountMap) (eg et : EvMap)
    {rules : List Rule} {r : Rule} (hr : r ∈ rules) (h : unsupportedRule r) :
    ∃ m, evalRules sel gc tc eg et rules = .error m := by
  induction rules with
  | nil => cases hr
  | cons hd tl ih =>
    cases hb : build_rule_result hd sel gc tc eg et with
    | error e => exact ⟨e, by simp [evalRules, hb]⟩
    | ok res =>
      rcases List.mem_cons.mp hr with rfl | htl
      · obtain ⟨m, hm⟩ := build_rule_result_error r sel gc tc eg et h
        rw [hm] at hb; cases hb
      · obtain ⟨m, hm⟩ := ih htl
        exact ⟨m, by simp [evalRules, hb, hm]⟩

/-- Claim C1. Rule evaluation applies `min` as `actual ≥ threshold`,
`max` as `actual ≤ threshold`, `equals` as `actual = threshold`; any
other operator string, and any `count_by` other than `"food_group"` or
`"tag"`, produces an error that aborts the whole evaluation run
instead of skipping the rule. -/
theorem c1_operators_and_fatal_errors
    (actual threshold : Int) (op : String) (rule : Rule) (sel : String)
    (gc tc : CountMap) (eg et : EvMap) (plan : Plan) (doc : RulesDoc) :
    (evaluate_operator actual "min" threshold = .ok (decide (actual ≥ threshold))) ∧
    (evaluate_operator actual "max" threshold = .ok (decide (actual ≤ threshold))) ∧
    (evaluate_operator actual "equals" threshold = .ok (decide (actual = threshold))) ∧
    (op ≠ "min" → op ≠ "max" → op ≠ "equals" →
      evaluate_operator actual op threshold = .error ("Unsupported operator: " ++ op)) ∧
    (∀ res, build_rule_result rule sel gc tc eg et = .ok res →
      res.passed = (if rule.operator = "min" then decide (res.actual ≥ res.threshold)
        else if rule.operator = "max" then decide (res.actual ≤ res.threshold)
        else decide (res.actual = res.threshold))) ∧
    ((rule.count_by ≠ some "food_group" ∧ rule.count_by ≠ some "tag") →
      ∃ m, build_rule_result rule sel gc tc eg et = .error m) ∧
    (rule ∈ doc.rules → unsupportedRule rule →
      ∃ m, evaluate_plan_for_diet plan doc sel = .error m) := by
  refine ⟨by simp [evaluate_operator], by simp [evaluate_operator],
    by simp [evaluate_operator], ?_, ?_, ?_, ?_⟩
  · intro h1 h2 h3
    simp [evaluate_operator, h1, h2, h3]
  · intro res h
    obtain ⟨ho, ht, _, hev⟩ := build_rule_result_ok_shape h
    unfold evaluate_operator at hev
    by_cases o1 : rule.operator = "min"
    · simp only [o1, reduceIte] at hev ⊢
      injection hev with hev
      rw [← hev, ht]
    · by_cases o2 : rule.operator = "max"
      · simp only [o1, o2, reduceIte] at hev ⊢
        injection hev with hev
        rw [← hev, ht]
        simp
      · by_cases o3 : rule.operator = "equals"
        · simp only [o1, o2, o3, reduceIte] at hev ⊢
          injection hev with hev
          rw [← hev, ht]
          simp
        · simp only [o1, o2, o3, reduceIte] at hev
          exact absurd hev (by simp)
  · intro h
    exact build_rule_result_error rule sel gc tc eg et (Or.inl h)
  · intro hmem hbad
    obtain ⟨m, hm⟩ := evalRules_error_of_mem sel
      (collect_counts_and_evidence plan sel).group_counts
      (collect_counts_and_evidence plan sel).tag_counts
      (collect_counts_and_evidence plan sel).evidence_groups
      (collect_counts_and_evidence plan sel).evidence_tags hmem hbad
    exact ⟨m, by simp [evaluate_plan_for_diet, hm]⟩

/-- Witness for C1: the theorem applied at a concrete bad operator and
a concrete bad rule document. -/
theorem c1_witness :
    (evaluate_operator 5 "avg" 3 = .error "Unsupported operator: avg") ∧
    (∃ m, evaluate_plan_for_diet ⟨[]⟩
      ⟨none, [{ count_by := some "per_day", operator := "min" }]⟩ "mixed" = .error m) := by
  constructor
  · exact (c1_operators_and_fatal_errors 5 3 "avg"
      { count_by := some "per_day", operator := "min" } "mixed" [] [] [] [] ⟨[]⟩
      ⟨none, []⟩).2.2.2.1 (by decide) (by decide) (by decide)
  · exact (c1_operators_and_fatal_errors 5 3 "avg"
      { count_by := some "per_day", operator := "min" } "mixed" [] [] [] [] ⟨[]⟩
      ⟨none, [{ count_by := some "per_day", operator := "min" }]⟩).2.2.2.2.2.2
      (by simp) (Or.inl (by simp))

/-! Section: Diet-line routing (claim C2) -/

theorem foldl_guard_eq_foldl_filter {α β : Type} (p : β → Bool) (f : α → β → α)
    (init : α) (l : List β) :
    l.foldl (fun a x => if p x then f a x else a) init = (l.filter p).foldl f init := by
  induction l generalizing init with
  | nil => rfl
  | cons hd tl ih => by_cases h : p hd <;> simp [h, ih]

theorem flatMap_filter_menus (menus : List Menu) (w : Option String) (sel : String) :
    (menus.filter (fun m => menu_included_for_diet m.menu_type sel)).flatMap
        (fun menu => menu.items.map fun it => (w, menu.menu_type, it)) =
      (menus.flatMap (fun menu => menu.items.map fun it => (w, menu.menu_type, it))).filter
        (fun wmi => menu_included_for_diet wmi.2.1 sel) := by
  induction menus with
  | nil => rfl
  | cons hd tl ih =>
    by_cases h : menu_included_for_diet hd.menu_type sel
    · simp only [List.filter_cons, h, if_pos, List.flatMap_cons, List.filter_append, ih]
      congr 1
      refine (List.filter_eq_self.mpr ?_).symm
      intro a ha
      obtain ⟨it, _, rfl⟩ := List.mem_map.mp ha
      exact h
    · simp only [List.filter_cons, h, List.flatMap_cons, List.filter_append, ih,
        Bool.false_eq_true, if_false]
      have : (hd.items.map fun it => (w, hd.menu_type, it)).filter
          (fun wmi => menu_included_for_diet wmi.2.1 sel) = [] := by
        rw [List.filter_eq_nil_iff]
        intro a ha
        obtain ⟨it, _, rfl⟩ := List.mem_map.mp ha
        simpa using h
      rw [this, List.nil_append]

theorem iter_items_filterPlan (plan : Plan) (sel : String) :
    iter_items (filterPlanForDiet plan sel) =
      (iter_items plan).filter (fun wmi => menu_included_for_diet wmi.2.1 sel) := by
  obtain ⟨days⟩ := plan
  unfold iter_items filterPlanForDiet
  induction days with
  | nil => rfl
  | cons hd tl ih =>
    simp only [List.map_cons, List.flatMap_cons, List.filter_append]
    rw [← ih]
    congr 1
    exact flatMap_filter_menus hd.menus hd.weekday sel

theorem collect_counts_filter (plan : Plan) (sel : String) :
    collect_counts_and_evidence plan sel =
      collect_counts_and_evidence (filterPlanForDiet plan sel) sel := by
  unfold collect_counts_and_evidence
  rw [iter_items_filterPlan]
  rw [foldl_guard_eq_foldl_filter, foldl_guard_eq_foldl_filter, List.filter_filter]
  congr 1
  apply List.filter_congr
  intro a _
  cases h : menu_included_for_diet a.2.1 sel <;> simp [h]

/-- Claim C2. Menu lines route to diet evaluation runs: a dessert menu
(and any unrecognised `menu_type`) maps to `"shared"` and is counted in
both the `"mixed"` and the `"ovo_lacto_vegetarian"` run; the vegetarian
line is counted only in the vegetarian run and the `"mischkost"` line
only in the mixed run; aggregation sees exactly the included menus. -/
theorem c2_diet_line_routing (mt : String) (plan : Plan) :
    (diet_from_menu_type "dessert" = "shared") ∧
    (pyLower (pyStrip mt) ∉ (["mischkost", "vegetarisch", "dessert"] : List String) →
      diet_from_menu_type mt = "shared") ∧
    (diet_from_menu_type mt = "shared" →
      menu_included_for_diet mt "mixed" = true ∧
      menu_included_for_diet mt "ovo_lacto_vegetarian" = true) ∧
    (diet_from_menu_type mt = "ovo_lacto_vegetarian" →
      menu_included_for_diet mt "ovo_lacto_vegetarian" = true ∧
      menu_included_for_diet mt "mixed" = false) ∧
    (diet_from_menu_type mt = "mixed" →
      menu_included_for_diet mt "mixed" = true ∧
      menu_included_for_diet mt "ovo_lacto_vegetarian" = false) ∧
    (diet_from_menu_type "vegetarisch" = "ovo_lacto_vegetarian") ∧
    (diet_from_menu_type "mischkost" = "mixed") ∧
    (∀ sel, collect_counts_and_evidence plan sel =
      collect_counts_and_evidence (filterPlanForDiet plan sel) sel) := by
  refine ⟨by decide, ?_, ?_, ?_, ?_, by decide, by decide,
    fun sel => collect_counts_filter plan sel⟩
  · intro h
    simp only [List.mem_cons, List.not_mem_nil, or_false, not_or] at h
    obtain ⟨h1, h2, h3⟩ := h
    unfold diet_from_menu_type
    simp [h1, h2, h3]
  · intro h
    unfold menu_included_for_diet
    simp [h]
  · intro h
    unfold menu_included_for_diet
    rw [h]
    refine ⟨by decide, by decide⟩
  · intro h
    unfold menu_included_for_diet
    rw [h]
    refine ⟨by decide, by decide⟩

/-- Witness for C2: an unrecognised menu line (`"eis"`) is included in
both runs; the vegetarian line is excluded from the mixed run. -/
theorem c2_witness :
    menu_included_for_diet "eis" "mixed" = true ∧
    menu_included_for_diet "eis" "ovo_lacto_vegetarian" = true ∧
    menu_included_for_diet "vegetarisch" "mixed" = false := by
  have h := c2_diet_line_routing "eis" ⟨[]⟩
  have hv := c2_diet_line_routing "vegetarisch" ⟨[]⟩
  have hshared : diet_from_menu_type "eis" = "shared" := h.2.1 (by decide)
  exact ⟨(h.2.2.1 hshared).1, (h.2.2.1 hshared).2, (hv.2.2.2.1 (by decide)).2⟩

/-! Section: Scoring (claim C3) -/

theorem evalRules_passed_le (sel : String) (gc tc : CountMap) (eg et : EvMap)
    {rules : List Rule} {res : List RuleResult} {a p : Nat}
    (h : evalRules sel gc tc eg et rules = .ok (res, a, p)) : p ≤ a := by
  induction rules generalizing res a p with
  | nil =>
    unfold evalRules at h
    injection h with h
    cases h
    exact le_refl 0
  | cons hd tl ih =>
    unfold evalRules at h
    cases hb : build_rule_result hd sel gc tc eg et with
    | error e => rw [hb] at h; cases h
    | ok r0 =>
      rw [hb] at h
      cases ht : evalRules sel gc tc eg et tl with
      | error e => rw [ht] at h; cases h
      | ok trip =>
        obtain ⟨res', a', p'⟩ := trip
        rw [ht] at h
        injection h with h
        have ih' := ih ht
        cases h
        cases hr : r0.applies <;> cases hp : r0.passed <;> simp [hr, hp] <;> omega

theorem evalRules_filter (sel : String) (gc tc : CountMap) (eg et : EvMap)
    {rules : List Rule} {res : List RuleResult} {a p : Nat}
    (h : evalRules sel gc tc eg et rules = .ok (res, a, p)) :
    evalRules sel gc tc eg et (rules.filter (fun r => rule_applies r sel)) =
      .ok (res.filter (fun r => r.applies), a, p) := by
  induction rules generalizing res a p with
  | nil =>
    unfold evalRules at h
    injection h with h
    cases h
    rfl
  | cons hd tl ih =>
    unfold evalRules at h
    cases hb : build_rule_result hd sel gc tc eg et with
    | error e => rw [hb] at h; cases h
    | ok r0 =>
      rw [hb] at h
      cases ht : evalRules sel gc tc eg et tl with
      | error e => rw [ht] at h; cases h
      | ok trip =>
        obtain ⟨res', a', p'⟩ := trip
        rw [ht] at h
        injection h with h
        cases h
        have happ : r0.applies = rule_applies hd sel := (build_rule_result_ok_shape hb).2.2.1
        by_cases ha : rule_applies hd sel
        · simp only [List.filter_cons, ha, if_pos]
          unfold evalRules
          rw [hb, ih ht]
          simp [happ, ha]
        · have hr : r0.applies = false := by rw [happ]; exact Bool.of_not_eq_true ha
          simp only [List.filter_cons, ha, hr, Bool.false_eq_true, if_false, Bool.false_and]
          rw [ih ht]
          simp

theorem round3_bounds {q : ℚ} (h0 : 0 ≤ q) (h1 : q ≤ 1) :
    0 ≤ round3 q ∧ round3 q ≤ 1 := by
  unfold round3
  constructor
  · apply div_nonneg _ (by norm_num)
    have : (0 : ℤ) ≤ round (1000 * q) := by
      rw [round_eq]
      exact Int.le_floor.mpr (by push_cast; linarith)
    exact_mod_cast this
  · rw [div_le_one (by norm_num)]
    have : round (1000 * q) ≤ 1000 := by
      rw [round_eq]
      have hlt : (1000 : ℚ) * q + 1 / 2 < 1001 := by linarith
      have := Int.floor_lt.mpr (by push_cast; linarith : (1000 : ℚ) * q + 1 / 2 < ((1001 : ℤ) : ℚ))
      omega
    exact_mod_cast this

/-- Claim C3. A report's score is the fraction of passed applicable rules
rounded to 3 decimals, is exactly 0 when no rule applies, always lies
in `[0, 1]`, and is unchanged when the non-applicable rules are removed
from the rule document. -/
theorem c3_score_properties (plan : Plan) (doc : RulesDoc) (sel : String) (r : Report)
    (h : evaluate_plan_for_diet plan doc sel = .ok r) :
    (r.summary.score =
      if r.summary.applicable_rules = 0 then 0
      else round3 ((r.summary.passed_rules : ℚ) / (r.summary.applicable_rules : ℚ))) ∧
    (0 ≤ r.summary.score ∧ r.summary.score ≤ 1) ∧
    (r.summary.applicable_rules = 0 → r.summary.score = 0) ∧
    (r.summary.passed_rules ≤ r.summary.applicable_rules) ∧
    (∃ r', evaluate_plan_for_diet plan
        ⟨doc.scope, doc.rules.filter (fun rl => rule_applies rl sel)⟩ sel = .ok r' ∧
      r'.summary = r.summary) := by
  simp only [evaluate_plan_for_diet] at h
  cases ht : evalRules sel
      (collect_counts_and_evidence plan sel).group_counts
      (collect_counts_and_evidence plan sel).tag_counts
      (collect_counts_and_evidence plan sel).evidence_groups
      (collect_counts_and_evidence plan sel).evidence_tags doc.rules with
  | error e => rw [ht] at h; cases h
  | ok trip =>
    obtain ⟨res, a, p⟩ := trip
    rw [ht] at h
    injection h with h
    subst h
    have hple : p ≤ a := evalRules_passed_le sel _ _ _ _ ht
    have hscore :
        (if a ≠ 0 then round3 ((p : ℚ) / (a : ℚ)) else 0) =
          if a = 0 then (0 : ℚ) else round3 ((p : ℚ) / (a : ℚ)) := by
      by_cases ha : a = 0 <;> simp [ha]
    refine ⟨by simp only [hscore], ?_, ?_, hple, ?_⟩
    · by_cases ha : a = 0
      · simp [ha]
      · have hq0 : (0 : ℚ) ≤ (p : ℚ) / (a : ℚ) :=
          div_nonneg (by positivity) (by positivity)
        have hq1 : (p : ℚ) / (a : ℚ) ≤ 1 := by
          rw [div_le_one (by exact_mod_cast Nat.pos_of_ne_zero ha)]
          exact_mod_cast hple
        have := round3_bounds hq0 hq1
        simpa [ha] using this
    · intro ha
      simp at ha
      simp [ha]
    · have hfilter := evalRules_filter sel _ _ _ _ ht
      refine ⟨Report.mk sel doc.scope
        ⟨a, p, if a ≠ 0 then round3 ((p : ℚ) / (a : ℚ)) else 0⟩
        (collect_counts_and_evidence plan sel).group_counts
        (collect_counts_and_evidence plan sel).tag_counts
        (res.filter (fun r => r.applies)), ?_, rfl⟩
      simp only [evaluate_plan_for_diet]
      rw [hfilter]

/-- Witness for C3: the theorem applied to a concrete evaluation run. -/
theorem c3_witness :
    ∃ r, evaluate_plan_for_diet ⟨[]⟩
        ⟨none, [{ count_by := some "tag", target_value := ["fish"],
                  operator := "min", threshold := 0 }]⟩ "mixed" = .ok r ∧
      0 ≤ r.summary.score ∧ r.summary.score ≤ 1 ∧
      (r.summary.applicable_rules = 0 → r.summary.score = 0) := by
  have h := c3_score_properties ⟨[]⟩
    ⟨none, [{ count_by := some "tag", target_value := ["fish"],
              operator := "min", threshold := 0 }]⟩ "mixed" _ rfl
  exact ⟨_, rfl, h.2.1.1, h.2.1.2, h.2.2.1⟩

/-! Section: Parser failure conditions (claim C4) -/

/-- Claim C4. Parsing fails — returning no plan at all — in exactly two
situations: no cell of column 0 normalises to a weekday label, or the
fully parsed plan holds zero items; otherwise the built plan is
returned whole. -/
theorem c4_parse_failure_conditions (grid : List Row) :
    ((∃ e, parse_foodplan_xlsx grid = .error e) ↔
      (dayRowIdxs ((grid.take 400).map (fun r => r.take 10)) = [] ∨
        totalItems (buildDays ((grid.take 400).map (fun r => r.take 10))
          (dayRowIdxs ((grid.take 400).map (fun r => r.take 10)))) = 0)) ∧
    (∀ p, parse_foodplan_xlsx grid = .ok p →
      p = ⟨buildDays ((grid.take 400).map (fun r => r.take 10))
            (dayRowIdxs ((grid.take 400).map (fun r => r.take 10)))⟩ ∧
        totalItems p.days ≠ 0) := by
  set g := (grid.take 400).map (fun r => r.take 10) with hg
  by_cases h1 : dayRowIdxs g = []
  · constructor
    · constructor
      · intro _
        exact Or.inl h1
      · intro _
        exact ⟨"Keine Tageszeilen (Montag-Freitag) in Spalte 0 gefunden. Format passt nicht.",
          by simp [parse_foodplan_xlsx, ← hg, h1]⟩
    · intro p hp
      simp [parse_foodplan_xlsx, ← hg, h1] at hp
  · have h1' : (dayRowIdxs g).isEmpty = false := by
      cases hd : dayRowIdxs g with
      | nil => exact absurd hd h1
      | cons a l => rfl
    by_cases h2 : totalItems (buildDays g (dayRowIdxs g)) = 0
    · constructor
      · constructor
        · intro _
          exact Or.inr h2
        · intro _
          exact ⟨"0 Items extrahiert. Vermutlich passt das XLSX nicht zum KW47-Template (Sheet Tabelle1, Spalten A..J).",
            by simp [parse_foodplan_xlsx, ← hg, h1', h2]⟩
      · intro p hp
        simp [parse_foodplan_xlsx, ← hg, h1', h2] at hp
    · constructor
      · constructor
        · rintro ⟨e, he⟩
          simp [parse_foodplan_xlsx, ← hg, h1', h2] at he
        · rintro (hc | hc)
          · exact absurd hc h1
          · exact absurd hc h2
      · intro p hp
        simp [parse_foodplan_xlsx, ← hg, h1', h2] at hp
        subst hp
        exact ⟨rfl, h2⟩

/-- Witness for C4: a one-row grid with a weekday and a dish parses to
a non-empty plan; a grid without weekday rows fails. -/
theorem c4_witness :
    (∃ p, parse_foodplan_xlsx [[some "Montag", some "Pizza", none, none]] = .ok p ∧
      totalItems p.days ≠ 0) ∧
    (∃ e, parse_foodplan_xlsx [[some "kein Tag", some "Pizza"]] = .error e) := by
  constructor
  · exact ⟨_, rfl,
      ((c4_parse_failure_conditions [[some "Montag", some "Pizza", none, none]]).2 _ rfl).2⟩
  · exact (c4_parse_failure_conditions [[some "kein Tag", some "Pizza"]]).1.mpr
      (Or.inl (by decide))

/-! Section: Plan normalization (claims C5, C6) -/

theorem linksOf_mk (r : String) (po : Option Portion) (no : List String)
    (L : Links) (t : List String) : linksOf ⟨r, po, no, some L, t⟩ = L := rfl

theorem normalizeItem_idem (it : Item) : normalizeItem (normalizeItem it) = normalizeItem it := by
  by_cases h2 : (linksOf it).food_group = some "raw_veg"
  · have hne : ¬((linksOf it).food_group = some "vegetable" ∨
        (linksOf it).food_group = some "vegetables") := by simp [h2]
    simp [normalizeItem, linksOf_mk, h2, hne]
  · by_cases h1 : (linksOf it).food_group = some "vegetable" ∨
        (linksOf it).food_group = some "vegetables"
    · rcases h1 with h | h <;> simp [normalizeItem, linksOf_mk, h, h2]
    · simp [normalizeItem, linksOf_mk, h1, h2]

/-- Claim C5. The plan-level normalization pass is idempotent. -/
theorem c5_normalize_plan_idempotent (p : Plan) :
    normalize_plan (normalize_plan p) = normalize_plan p := by
  obtain ⟨days⟩ := p
  simp only [normalize_plan]
  congr 1
  rw [List.map_map]
  apply List.map_congr_left
  intro day _
  simp only [Function.comp_apply]
  congr 1
  rw [List.map_map]
  apply List.map_congr_left
  intro menu _
  simp only [Function.comp_apply]
  congr 1
  rw [List.map_map]
  apply List.map_congr_left
  intro it _
  exact normalizeItem_idem it

/-- Claim C6 counterexample. An item that arrives with food group
`"raw_veg"` and a duplicated `"raw_veg"` tag keeps both copies after
`normalize_plan`: the food group is corrected to `"vegetables"`, but
the tags contain `"raw_veg"` twice, not exactly once. -/
theorem c6_counterexample :
    (normalize_plan
        ⟨[⟨some "Montag",
          [⟨"mischkost",
            [{ raw_text := "Salat",
               links := some { food_group := some "raw_veg" },
               tags := ["raw_veg", "raw_veg"] }]⟩]⟩]⟩).days.map
        (fun d => d.menus.map fun m => m.items.map fun it =>
          ((linksOf it).food_group, it.tags.count "raw_veg")) =
      [[[(some "vegetables", 2)]]] ∧ (2 : Nat) ≠ 1 := by
  constructor
  · decide
  · decide

/-- Claim C6 (amended). After `normalize_plan` (which maps `normalizeItem`
over every item): a food group of `"vegetable"`/`"vegetables"` becomes
the canonical `"vegetables"`; an item whose food group was literally
`"raw_veg"` gets food group `"vegetables"` and carries the tag
`"raw_veg"` — exactly once provided its incoming tags contained
`"raw_veg"` at most once — and a repeated run never adds another copy. -/
theorem c6_raw_veg_normalization (p : Plan) (it : Item) :
    ((normalize_plan p).days = p.days.map fun day =>
      { day with menus := day.menus.map fun menu =>
          { menu with items := menu.items.map normalizeItem } }) ∧
    ((linksOf it).food_group = some "vegetable" ∨ (linksOf it).food_group = some "vegetables" →
      (linksOf (normalizeItem it)).food_group = some "vegetables") ∧
    ((linksOf it).food_group = some "raw_veg" →
      (linksOf (normalizeItem it)).food_group = some "vegetables" ∧
      (normalizeItem it).tags.count "raw_veg" ≥ 1 ∧
      (it.tags.count "raw_veg" ≤ 1 → (normalizeItem it).tags.count "raw_veg" = 1) ∧
      (normalizeItem (normalizeItem it)).tags.count "raw_veg" =
        (normalizeItem it).tags.count "raw_veg") := by
  refine ⟨rfl, ?_, ?_⟩
  · intro h
    rcases h with h | h <;> simp [normalizeItem, linksOf_mk, h]
  · intro h
    have ht : (normalizeItem it).tags =
        if "raw_veg" ∈ it.tags then it.tags else it.tags ++ ["raw_veg"] := by
      simp [normalizeItem, h]
    refine ⟨?_, ?_, ?_, ?_⟩
    · simp [normalizeItem, linksOf_mk, h]
    · rw [ht]
      by_cases hmem : "raw_veg" ∈ it.tags
      · simp only [hmem, reduceIte]
        exact List.count_pos_iff.mpr hmem
      · simp [hmem, List.count_append]
    · intro hle
      rw [ht]
      by_cases hmem : "raw_veg" ∈ it.tags
      · simp only [hmem, reduceIte]
        have h1 : 1 ≤ it.tags.count "raw_veg" := List.count_pos_iff.mpr hmem
        omega
      · have h0 : it.tags.count "raw_veg" = 0 := List.count_eq_zero.mpr hmem
        simp [hmem, List.count_append, h0]
    · rw [normalizeItem_idem]

/-- Witness for the amended C6: a `"raw_veg"` item without a
pre-existing duplicate ends up with the tag exactly once. -/
theorem c6_witness :
    (linksOf (normalizeItem (Item.mk "Salat" none [] (some (Links.mk none none (some "raw_veg") none)) []))).food_group = some "vegetables" ∧
    (normalizeItem (Item.mk "Salat" none [] (some (Links.mk none none (some "raw_veg") none)) [])).tags.count "raw_veg" = 1 := by
  have h := c6_raw_veg_normalization ⟨[]⟩
    (Item.mk "Salat" none [] (some (Links.mk none none (some "raw_veg") none)) [])
  have h2 := h.2.2 (by decide)
  exact ⟨h2.1, h2.2.2.1 (by decide)⟩

/-! Section: Continuation-line merging (claim C7) -/

/-- Claim C7. A continuation row merges into the open dish: a trailing
hyphen is dropped and the texts concatenate without a space, otherwise
exactly one space separates them; in particular the two-row block
`"Nudel-"` / `"auflauf"` parses to the single dish `"Nudelauflauf"`. -/
theorem c7_continuation_merge (prev curr : String) :
    (∀ t : String, prev = t ++ "-" → join_hyphen prev curr = t ++ curr) ∧
    ((¬ ∃ t : String, prev = t ++ "-") → join_hyphen prev curr = prev ++ " " ++ curr) ∧
    parse_block [[none, some "Nudel-", none, none], [none, some "auflauf", none, none]] 1 2 3 =
      [{ raw_text := "Nudelauflauf", portion := none, notes := [],
         links := some ⟨none, none, none, none⟩, tags := [] }] := by
  refine ⟨?_, ?_, by decide⟩
  · rintro t rfl
    unfold join_hyphen
    have hlast : (t ++ "-").data.getLast? = some '-' := by
      rw [show (t ++ "-").data = t.data ++ ['-'] from rfl]
      exact List.getLast?_concat _
    rw [if_pos hlast]
    have hdrop : (t ++ "-").data.dropLast = t.data := by
      rw [show (t ++ "-").data = t.data ++ ['-'] from rfl]
      exact List.dropLast_concat
    rw [hdrop]
  · intro hno
    unfold join_hyphen
    rw [if_neg]
    intro hlast
    apply hno
    cases prev with
    | mk l =>
      have hne : l ≠ [] := by
        intro hemp
        subst hemp
        simp at hlast
      have hg : l.getLast hne = '-' := by
        have h1 : l.getLast? = some (l.getLast hne) := List.getLast?_eq_getLast l hne
        rw [h1] at hlast
        injection hlast
      refine ⟨⟨l.dropLast⟩, ?_⟩
      show String.mk l = String.mk (l.dropLast ++ ['-'])
      congr 1
      rw [← hg]
      exact (List.dropLast_append_getLast hne).symm

/-- Witness for C7: the hyphen rule applied to the scenario's strings. -/
theorem c7_witness :
    join_hyphen "Nudel-" "auflauf" = "Nudelauflauf" ∧
    join_hyphen "Nudel" "auflauf" = "Nudel auflauf" := by
  constructor
  · exact (c7_continuation_merge "Nudel-" "auflauf").1 "Nudel" rfl
  · exact (c7_continuation_merge "Nudel" "auflauf").2.1 (by
      rintro ⟨t, ht⟩
      have : ("Nudel" : String).data = t.data ++ ['-'] := by
        rw [ht]; rfl
      have := congrArg List.getLast? this
      rw [List.getLast?_concat] at this
      simp at this)

/-! Section: Portion-pattern characterisation (claim C8) -/

theorem toNat_ofNat_valid (n : Nat) (h : n.isValidChar) : (Char.ofNat n).toNat = n := by
  simp only [Char.ofNat, h, dif_pos, Char.ofNatAux, Char.toNat]
  rfl

theorem digit_not_space {c : Char} (h : isDigitChar c = true) : isPySpace c = false := by
  simp only [isDigitChar, Bool.and_eq_true, decide_eq_true_eq] at h
  simp only [isPySpace, Bool.or_eq_false_iff, decide_eq_false_iff_not]
  omega

theorem lower_preserves_space (c : Char) : isPySpace (pyLowerChar c) = isPySpace c := by
  unfold pyLowerChar
  by_cases h : (65 ≤ c.toNat && c.toNat ≤ 90) = true
  · rw [if_pos h]
    simp only [Bool.and_eq_true, decide_eq_true_eq] at h
    have hv : (c.toNat + 32).isValidChar := Or.inl (by omega)
    have h1 : isPySpace (Char.ofNat (c.toNat + 32)) = false := by
      simp only [isPySpace, toNat_ofNat_valid _ hv, Bool.or_eq_false_iff,
        decide_eq_false_iff_not]
      omega
    have h2 : isPySpace c = false := by
      simp only [isPySpace, Bool.or_eq_false_iff, decide_eq_false_iff_not]
      omega
    rw [h1, h2]
  · rw [if_neg h]
    by_cases hA : c = 'Ä'
    · subst hA; decide
    · rw [if_neg hA]
      by_cases hO : c = 'Ö'
      · subst hO; decide
      · rw [if_neg hO]
        by_cases hU : c = 'Ü'
        · subst hU; decide
        · rw [if_neg hU]

theorem takeWhile_append_of {p : Char → Bool} (as : List Char) (b : Char) (bs : List Char)
    (h1 : ∀ a ∈ as, p a = true) (h2 : p b = false) :
    (as ++ b :: bs).takeWhile p = as ∧ (as ++ b :: bs).dropWhile p = b :: bs := by
  induction as with
  | nil => simp [List.takeWhile_cons, List.dropWhile_cons, h2]
  | cons x xs ih =>
    have hx : p x = true := h1 x (List.mem_cons_self x xs)
    have ih' := ih (fun a ha => h1 a (List.mem_cons_of_mem x ha))
    simp [List.takeWhile_cons, List.dropWhile_cons, hx, ih'.1, ih'.2]

theorem filter_nonws_dropWhile_ws (l : List Char) :
    (l.dropWhile isPySpace).filter (fun c => !(isPySpace c)) =
      l.filter (fun c => !(isPySpace c)) := by
  induction l with
  | nil => rfl
  | cons x xs ih =>
    rw [List.dropWhile_cons]
    by_cases hx : isPySpace x = true
    · rw [if_pos hx, ih]
      simp [List.filter_cons, hx]
    · rw [if_neg hx]

theorem filter_nonws_strip (l : List Char) :
    (pyStripL l).filter (fun c => !(isPySpace c)) = l.filter (fun c => !(isPySpace c)) := by
  unfold pyStripL
  rw [List.filter_reverse, filter_nonws_dropWhile_ws, List.filter_reverse,
    List.reverse_reverse, filter_nonws_dropWhile_ws]

theorem filter_nonws_lower (l : List Char) :
    (pyLowerL l).filter (fun c => !(isPySpace c)) =
      pyLowerL (l.filter (fun c => !(isPySpace c))) := by
  unfold pyLowerL
  rw [List.filter_map]
  congr 1
  apply List.filter_congr
  intro a _
  simp [Function.comp, lower_preserves_space]

theorem filter_nonws_despace (l : List Char) :
    (l.filter (fun c => c ≠ ' ')).filter (fun c => !(isPySpace c)) =
      l.filter (fun c => !(isPySpace c)) := by
  rw [List.filter_filter]
  apply List.filter_congr
  intro a _
  cases hws : isPySpace a
  · have hsp : a ≠ ' ' := by
      intro he
      subst he
      simp [isPySpace] at hws
    simp [hws, hsp]
  · simp [hws]

theorem filter_nonws_clean (s : String) :
    ((pyLowerL (pyStripL s.data)).filter (fun c => c ≠ ' ')).filter
        (fun c => !(isPySpace c)) =
      (pyLowerL s.data).filter (fun c => !(isPySpace c)) := by
  rw [filter_nonws_despace, filter_nonws_lower, filter_nonws_strip, ← filter_nonws_lower]

theorem finishAmount_unit {v : ℚ} {r2 : List Char} {p : Portion}
    (h : finishAmount v r2 = some p) :
    r2.dropWhile isPySpace = ['g'] ∨ r2.dropWhile isPySpace = ['m', 'l'] := by
  simp only [finishAmount] at h
  by_cases h1 : r2.dropWhile isPySpace = ['g']
  · exact Or.inl h1
  · rw [if_neg h1] at h
    by_cases h2 : r2.dropWhile isPySpace = ['m', 'l']
    · exact Or.inr h2
    · rw [if_neg h2] at h
      cases h

theorem filter_nonws_digits {d : List Char} (h : ∀ a ∈ d, isDigitChar a = true) :
    d.filter (fun c => !(isPySpace c)) = d :=
  List.filter_eq_self.mpr fun a ha => by simp [digit_not_space (h a ha)]

theorem filter_nonws_tail {r unit : List Char}
    (hu : r.dropWhile isPySpace = unit) :
    r.filter (fun c => !(isPySpace c)) = unit.filter (fun c => !(isPySpace c)) := by
  rw [← filter_nonws_dropWhile_ws, hu]

theorem patternNoWs_plain {d1 : List Char} (unit : List Char)
    (h1 : d1.isEmpty = false) (hall : ∀ a ∈ d1, isDigitChar a = true)
    (hu : unit = ['g'] ∨ unit = ['m', 'l']) :
    patternNoWs (d1 ++ unit) = true := by
  rcases hu with rfl | rfl
  · have hsp := takeWhile_append_of d1 'g' [] hall (by decide)
    simp only [patternNoWs, hsp.1, hsp.2, h1]
    simp [unitOk]
  · have hsp := takeWhile_append_of d1 'm' ['l'] hall (by decide)
    simp only [patternNoWs, hsp.1, hsp.2, h1]
    simp [unitOk]

theorem patternNoWs_dot {d1 d2 : List Char} (unit : List Char)
    (h1 : d1.isEmpty = false) (h2 : d2.isEmpty = false)
    (hall1 : ∀ a ∈ d1, isDigitChar a = true) (hall2 : ∀ a ∈ d2, isDigitChar a = true)
    (hu : unit = ['g'] ∨ unit = ['m', 'l']) :
    patternNoWs (d1 ++ '.' :: (d2 ++ unit)) = true := by
  have hsp := takeWhile_append_of d1 '.' (d2 ++ unit) hall1 (by decide)
  rcases hu with rfl | rfl
  · have hsp2 := takeWhile_append_of d2 'g' [] hall2 (by decide)
    simp only [patternNoWs, hsp.1, hsp.2, hsp2.1, hsp2.2, h1, h2]
    simp [unitOk]
  · have hsp2 := takeWhile_append_of d2 'm' ['l'] hall2 (by decide)
    simp only [patternNoWs, hsp.1, hsp.2, hsp2.1, hsp2.2, h1, h2]
    simp [unitOk]

theorem matchAmount_pattern {cs : List Char} {p : Portion}
    (h : matchAmount cs = some p) :
    patternNoWs (cs.filter (fun c => !(isPySpace c))) = true := by
  have hsplit : cs.takeWhile isDigitChar ++ cs.dropWhile isDigitChar = cs :=
    List.takeWhile_append_dropWhile isDigitChar cs
  have hall1 : ∀ a ∈ cs.takeWhile isDigitChar, isDigitChar a = true :=
    fun a ha => List.mem_takeWhile_imp ha
  simp only [matchAmount] at h
  cases hd1 : (cs.takeWhile isDigitChar).isEmpty with
  | true => rw [hd1] at h; simp at h
  | false =>
    rw [hd1] at h
    simp only [Bool.false_eq_true, if_false] at h
    split at h
    · -- fraction present: dropWhile = '.' :: rest
      rename_i rest heq
      cases hd2 : (rest.takeWhile isDigitChar).isEmpty with
      | true => rw [hd2] at h; simp at h
      | false =>
        rw [hd2] at h
        simp only [Bool.false_eq_true, if_false] at h
        obtain hu := finishAmount_unit h
        have hall2 : ∀ a ∈ rest.takeWhile isDigitChar, isDigitChar a = true :=
          fun a ha => List.mem_takeWhile_imp ha
        have hrest : rest.takeWhile isDigitChar ++ rest.dropWhile isDigitChar = rest :=
          List.takeWhile_append_dropWhile isDigitChar rest
        have hcs : cs.filter (fun c => !(isPySpace c)) =
            cs.takeWhile isDigitChar ++ '.' ::
              (rest.takeWhile isDigitChar ++ (rest.dropWhile isDigitChar).dropWhile isPySpace) := by
          conv_lhs => rw [← hsplit, heq]
          rw [List.filter_append, filter_nonws_digits hall1]
          congr 1
          rw [show ('.' :: rest).filter (fun c => !(isPySpace c)) =
              '.' :: rest.filter (fun c => !(isPySpace c)) from by simp [List.filter_cons, isPySpace]]
          congr 1
          conv_lhs => rw [← hrest]
          rw [List.filter_append, filter_nonws_digits hall2]
          congr 1
          rw [← filter_nonws_dropWhile_ws]
          rcases hu with hu | hu <;> rw [hu] <;> decide
        rw [hcs]
        rcases hu with hu | hu <;> rw [hu]
        · exact patternNoWs_dot ['g'] hd1 hd2 hall1 hall2 (Or.inl rfl)
        · exact patternNoWs_dot ['m', 'l'] hd1 hd2 hall1 hall2 (Or.inr rfl)
    · -- no fraction: everything after the digits is whitespace + unit
      obtain hu := finishAmount_unit h
      have hcs : cs.filter (fun c => !(isPySpace c)) =
          cs.takeWhile isDigitChar ++ (cs.dropWhile isDigitChar).dropWhile isPySpace := by
        conv_lhs => rw [← hsplit]
        rw [List.filter_append, filter_nonws_digits hall1]
        congr 1
        rw [← filter_nonws_dropWhile_ws]
        rcases hu with hu | hu <;> rw [hu] <;> decide
      rw [hcs]
      rcases hu with hu | hu <;> rw [hu]
      · exact patternNoWs_plain ['g'] hd1 hall1 (Or.inl rfl)
      · exact patternNoWs_plain ['m', 'l'] hd1 hall1 (Or.inr rfl)

/-- Claim C8. Portion parsing accepts only (case- and
whitespace-insensitive instances of) the literal patterns `<number>g`,
`<number> g`, `<number>ml`, `<number> ml`; `"200g"` and `"200 g"` both
map to `{value := 200, unit := "g"}`, while any other text — e.g.
`"two hundred grams"` — yields a null portion rather than an error. -/
theorem c8_portion_parsing (s : String) (p : Portion) :
    (parse_amount (some s) = some p → specPortionPattern s = true) ∧
    parse_amount (some "200g") = some ⟨200, "g"⟩ ∧
    parse_amount (some "200 g") = some ⟨200, "g"⟩ ∧
    parse_amount (some "two hundred grams") = none ∧
    parse_amount none = none := by
  have hval : floatOfDigits ['2', '0', '0'] [] = 200 := by
    have h : digitsToNat ['2', '0', '0'] = 200 := by decide
    simp [floatOfDigits, h, digitsToNat]
  refine ⟨?_, ?_, ?_, by decide, rfl⟩
  · intro h
    simp only [parse_amount] at h
    by_cases hs : s = ""
    · rw [if_pos hs] at h; cases h
    · rw [if_neg hs] at h
      have := matchAmount_pattern h
      rw [filter_nonws_clean] at this
      exact this
  · rw [show parse_amount (some "200g") =
      some ⟨floatOfDigits ['2', '0', '0'] [], "g"⟩ from rfl, hval]
  · rw [show parse_amount (some "200 g") =
      some ⟨floatOfDigits ['2', '0', '0'] [], "g"⟩ from rfl, hval]

/-- Witness for C8: the only-patterns implication applied to a parsed
portion text (`"12.5ML"`, exercising case and fraction handling). -/
theorem c8_witness : specPortionPattern "12.5ML" = true :=
  (c8_portion_parsing "12.5ML" ⟨floatOfDigits ['1', '2'] ['5'], "ml"⟩).1 rfl

/-! Section: Text normalization (claim C9) -/

theorem collapseWs_props (l : List Char) :
    wsOnlySpace (collapseWsL l) = true ∧ noTwoWs (collapseWsL l) = true := by
  induction l with
  | nil => exact ⟨rfl, rfl⟩
  | cons c rest ih =>
    obtain ⟨ih1, ih2⟩ := ih
    by_cases hc : isPySpace c = true
    · simp only [collapseWsL, hc, if_pos]
      split
      · rename_i t heq
        rw [← heq]
        exact ⟨ih1, ih2⟩
      · rename_i t hne
        constructor
        · simp only [wsOnlySpace, List.all_cons, Bool.and_eq_true]
          refine ⟨by decide, ?_⟩
          simpa [wsOnlySpace] using ih1
        · cases ht : collapseWsL rest with
          | nil => decide
          | cons d t' =>
            rw [ht] at ih1 ih2
            have hd : isPySpace d = false := by
              by_cases hd' : d = ' '
              · subst hd'
                exact (hne t' ht).elim
              · have h1 := ih1
                simp only [wsOnlySpace, List.all_cons, Bool.and_eq_true] at h1
                have h2 := h1.1
                simp [hd'] at h2
                simpa using h2
            simp only [noTwoWs, Bool.and_eq_true]
            exact ⟨by simp [hd], ih2⟩
    · simp only [collapseWsL, hc, Bool.false_eq_true, if_false]
      constructor
      · simp only [wsOnlySpace, List.all_cons, Bool.and_eq_true]
        refine ⟨by simp [hc], ?_⟩
        simpa [wsOnlySpace] using ih1
      · cases ht : collapseWsL rest with
        | nil => rfl
        | cons d t' =>
          rw [ht] at ih2
          simp only [noTwoWs, Bool.and_eq_true]
          exact ⟨by simp [hc], ih2⟩

/-- Claim C9 counterexample. The classifier's normalization does not
apply *canonical*-compose normalization: the code calls NFKC
(compatibility composition), which rewrites the FI ligature, while
canonical composition leaves it unchanged.  At input `"ﬁsch"` the two
disagree. -/
theorem c9_counterexample :
    normalize_text "ﬁsch" = "fisch" ∧
    normalizeTextCanonical "ﬁsch" = "ﬁsch" ∧
    normalize_text "ﬁsch" ≠ normalizeTextCanonical "ﬁsch" := by
  refine ⟨by decide, by decide, by decide⟩

/-- Claim C9 (amended). For every input string, the classifier's text
normalization trims, lowercases, applies Unicode *compatibility*-compose
(NFKC) normalization, and collapses every internal whitespace run to a
single space: the result is exactly that pipeline, it contains no two
adjacent whitespace characters, and every whitespace character left in
it is a single SPACE. -/
theorem c9_text_normalization (s : String) :
    (normalize_text s =
      if s = "" then "" else ⟨collapseWsL (nfkcL (pyLowerL (pyStripL s.data)))⟩) ∧
    wsOnlySpace (normalize_text s).data = true ∧
    noTwoWs (normalize_text s).data = true := by
  refine ⟨rfl, ?_, ?_⟩
  · unfold normalize_text
    by_cases hs : s = ""
    · rw [if_pos hs]; rfl
    · rw [if_neg hs]
      exact (collapseWs_props _).1
  · unfold normalize_text
    by_cases hs : s = ""
    · rw [if_pos hs]; rfl
    · rw [if_neg hs]
      exact (collapseWs_props _).2

/-! Section: Enrichment tag merging (claim C10) -/

theorem enrichItem_tags (group_keywords tag_keywords : KeywordMap) (bls : BlsLookup)
    (it : Item) :
    (enrichItem group_keywords tag_keywords bls it).tags =
      sortedSet (it.tags ++ collectedTags group_keywords tag_keywords bls it) := by
  by_cases hkey : (pick_best_group it.raw_text group_keywords).key = none ∨
      (pick_best_group it.raw_text group_keywords).key = some ""
  · cases bls with
    | none => simp [enrichItem, collectedTags, hkey]
    | some query =>
      cases hq : (query it.raw_text).2 with
      | none => simp [enrichItem, collectedTags, hkey, hq]
      | some nm =>
        by_cases hnm : nm = ""
        · simp [enrichItem, collectedTags, hkey, hq, hnm]
        · simp [enrichItem, collectedTags, hkey, hq, hnm]
  · simp [enrichItem, collectedTags, hkey]

/-- Claim C10. After enrichment, an item's tags are the sorted,
duplicate-free union of the tags it already carried and the newly
collected tags (keyword tags, extended by the fallback name's tags when
the BLS fallback was used): membership is exactly the union, no
pre-existing tag is removed, the list has no duplicates and is sorted;
`enrich_plan` applies this to every item of the plan. -/
theorem c10_enrichment_tag_union (group_keywords tag_keywords : KeywordMap)
    (bls : BlsLookup) (it : Item) (p : Plan) :
    (∀ t, t ∈ (enrichItem group_keywords tag_keywords bls it).tags ↔
      (t ∈ it.tags ∨ t ∈ collectedTags group_keywords tag_keywords bls it)) ∧
    (∀ t, t ∈ it.tags → t ∈ (enrichItem group_keywords tag_keywords bls it).tags) ∧
    (enrichItem group_keywords tag_keywords bls it).tags.Nodup ∧
    List.Sorted strLeP (enrichItem group_keywords tag_keywords bls it).tags ∧
    ((enrich_plan p group_keywords tag_keywords bls).days = p.days.map fun day =>
      { day with menus := day.menus.map fun menu =>
          { menu with
            items := menu.items.map (enrichItem group_keywords tag_keywords bls) } }) := by
  have htags := enrichItem_tags group_keywords tag_keywords bls it
  refine ⟨?_, ?_, ?_, ?_, rfl⟩
  · intro t
    rw [htags, mem_sortedSet, List.mem_append]
  · intro t ht
    rw [htags, mem_sortedSet, List.mem_append]
    exact Or.inl ht
  · rw [htags]
    exact nodup_sortedSet _
  · rw [htags]
    exact sorted_sortedSet _

end Genau
